import Mathlib

set_option maxHeartbeats 1000000

/-!
Shallow embedding of the core posting and transaction operations of the
ledger repository (src/core/posting.go): the in-place reversal of a list
of postings, the transaction reversal helper built on it, and the
hash-chain function over the JSON serialization of transactions.
Go slices are modelled as lists, in-place mutation as explicit state
passing (a function from the list before the call to the list after),
and machine integers as Int where the source uses int64.
-/

/-- Posting mirrors the Go struct core.Posting: a transfer of Amount units
of Asset from Source to Destination. Amount is int64 in the source,
modelled as Int. -/
structure Posting where
  Source : String
  Destination : String
  Amount : Int
  Asset : String
deriving DecidableEq

/-- Metadata models core.Metadata. The type declaration itself is outside
src. Modelled from the spec: a mapping from string keys to opaque raw
JSON values, here an association list of key and raw JSON text. -/
abbrev Metadata := List (String × String)

/-- Postings mirrors the Go slice type core.Postings. -/
abbrev Postings := List Posting

/-- Transaction mirrors the Go struct core.Transaction with json tags
txid, postings, reference, timestamp, hash, metadata. -/
structure Transaction where
  ID : Int
  Postings : List Posting
  Reference : String
  Timestamp : String
  Hash : String
  Metadata : Metadata
deriving DecidableEq

/-- Default posting value used by list indexing helpers; it is the Go
zero value of core.Posting. -/
def defaultPosting : Posting := ⟨"", "", 0, ""⟩

/-- Exchange of the Source and Destination fields of one posting, as the
field assignments in Postings.Reverse do. -/
def swapSourceDest (p : Posting) : Posting :=
  ⟨p.Destination, p.Source, p.Amount, p.Asset⟩

/-- One iteration of the loop body of Postings.Reverse in the source: the
elements at positions i and opp = len-1-i are exchanged and each has its
Source and Destination fields swapped. The Go parallel assignment reads
both old values before writing, which the two reads before the two sets
reproduce. -/
def Postings.reverseStep (ps : Postings) (i : Nat) : Postings :=
  (ps.set i (swapSourceDest (ps.getD (ps.length - 1 - i) defaultPosting))).set
    (ps.length - 1 - i) (swapSourceDest (ps.getD i defaultPosting))

/-- Loop of Postings.Reverse: started with k = len(ps)/2, it runs the body
at indices i = k-1, k-2, ..., 0, matching the Go loop
for i := len(ps)/2 - 1; i >= 0; i--. -/
def Postings.reverseLoop : Postings → Nat → Postings
  | ps, 0 => ps
  | ps, k + 1 => Postings.reverseLoop (Postings.reverseStep ps k) k

/-- Postings.Reverse models the Go method of the same name, giving the
value of the slice after the in-place reversal. A slice of length one is
handled by the special case that swaps the fields of its sole element;
otherwise the loop runs from len/2 - 1 down to 0. -/
def Postings.Reverse (ps : Postings) : Postings :=
  match ps with
  | [p] => [swapSourceDest p]
  | _ => Postings.reverseLoop ps (ps.length / 2)

/-- Transaction.Reverse models the Go method. In the source, postings :=
t.Postings copies only the slice header, so Postings.Reverse mutates the
backing array shared with t. The first component is the returned
transaction (zero ID, timestamp, hash and metadata; reference equal to
revert_ followed by the old reference); the second component is the value
of the receiver t after the call. -/
def Transaction.Reverse (t : Transaction) : Transaction × Transaction :=
  let postings := Postings.Reverse t.Postings
  (⟨0, postings, "revert_" ++ t.Reference, "", "", []⟩,
   ⟨t.ID, postings, t.Reference, t.Timestamp, t.Hash, t.Metadata⟩)

/-- Reversal of a postings list as claim C1 states it: the postings in
reversed order with Source and Destination swapped in every posting. -/
def claimReverse (ps : Postings) : Postings :=
  ps.reverse.map swapSourceDest

/-- Declarative description of what the code actually produces: the
claimed reversal, except that the middle posting of an odd-length list of
three or more keeps its original fields. -/
def actualReverse (ps : Postings) : Postings :=
  if 3 ≤ ps.length ∧ ps.length % 2 = 1 then
    (claimReverse ps).set (ps.length / 2) (ps.getD (ps.length / 2) defaultPosting)
  else claimReverse ps

/-- Concrete one-posting transaction used as input below. -/
def tx1 : Transaction := ⟨0, [⟨"a", "b", 1, "COIN"⟩], "", "", "", []⟩

/-- Concrete three-posting transaction used as input below. -/
def tx3 : Transaction :=
  ⟨7, [⟨"a", "b", 1, "COIN"⟩, ⟨"b", "c", 1, "COIN"⟩, ⟨"c", "d", 1, "COIN"⟩],
   "r1", "", "", []⟩

example : Postings.Reverse [⟨"a", "b", 1, "X"⟩, ⟨"c", "d", 2, "X"⟩] =
    [⟨"d", "c", 2, "X"⟩, ⟨"b", "a", 1, "X"⟩] := by decide

example : (Transaction.Reverse tx3).1.Postings =
    [⟨"d", "c", 1, "COIN"⟩, ⟨"b", "c", 1, "COIN"⟩, ⟨"b", "a", 1, "COIN"⟩] := by decide

example : actualReverse tx3.Postings = (Transaction.Reverse tx3).1.Postings := by decide

example : (Transaction.Reverse tx1).2.Postings = [⟨"b", "a", 1, "COIN"⟩] := by decide

theorem length_reverseStep (ps : Postings) (i : Nat) :
    (Postings.reverseStep ps i).length = ps.length := by
  simp [Postings.reverseStep]

theorem length_reverseLoop (ps : Postings) (k : Nat) :
    (Postings.reverseLoop ps k).length = ps.length := by
  induction k generalizing ps with
  | zero => rfl
  | succ k ih =>
    rw [Postings.reverseLoop, ih, length_reverseStep]

theorem getElem?_reverseStep (ps : Postings) (i j : Nat) (h2 : 2 * i + 2 ≤ ps.length) :
    (Postings.reverseStep ps i)[j]? =
      if j = i then (ps[ps.length - 1 - i]?).map swapSourceDest
      else if j = ps.length - 1 - i then (ps[i]?).map swapSourceDest
      else ps[j]? := by
  have hi : i < ps.length := by omega
  have hopp : ps.length - 1 - i < ps.length := by omega
  have hne : i ≠ ps.length - 1 - i := by omega
  rw [Postings.reverseStep, List.getElem?_set, List.getElem?_set]
  simp only [List.length_set]
  rw [List.getD_eq_getElem?_getD, List.getD_eq_getElem?_getD,
      List.getElem?_eq_getElem hi, List.getElem?_eq_getElem hopp]
  split_ifs <;> first
    | omega
    | simp

theorem getElem?_reverseLoop (k : Nat) (ps : Postings) (j : Nat)
    (hk : 2 * k ≤ ps.length) :
    (Postings.reverseLoop ps k)[j]? =
      if j < k ∨ (ps.length - k ≤ j ∧ j < ps.length) then
        (ps[ps.length - 1 - j]?).map swapSourceDest
      else ps[j]? := by
  induction k generalizing ps with
  | zero =>
    have hc : ¬(j < 0 ∨ (ps.length - 0 ≤ j ∧ j < ps.length)) := by omega
    rw [Postings.reverseLoop, if_neg hc]
  | succ k ih =>
    have hlen : (Postings.reverseStep ps k).length = ps.length :=
      length_reverseStep ps k
    rw [Postings.reverseLoop, ih (Postings.reverseStep ps k) (by omega)]
    rw [hlen]
    rw [getElem?_reverseStep ps k j (by omega),
        getElem?_reverseStep ps k (ps.length - 1 - j) (by omega)]
    by_cases hj1 : j < k
    · have e1 : ¬(ps.length - 1 - j = k) := by omega
      have e2 : ¬(ps.length - 1 - j = ps.length - 1 - k) := by omega
      have c1 : j < k ∨ (ps.length - k ≤ j ∧ j < ps.length) := Or.inl hj1
      have c2 : j < k + 1 ∨ (ps.length - (k + 1) ≤ j ∧ j < ps.length) := by omega
      rw [if_pos c1, if_neg e1, if_neg e2, if_pos c2]
    · by_cases hj2 : j = k
      · have c1 : ¬(j < k ∨ (ps.length - k ≤ j ∧ j < ps.length)) := by omega
        have c2 : j < k + 1 ∨ (ps.length - (k + 1) ≤ j ∧ j < ps.length) := by omega
        rw [if_neg c1, if_pos hj2, if_pos c2, hj2]
      · by_cases hj3 : j = ps.length - 1 - k
        · have c1 : ¬(j < k ∨ (ps.length - k ≤ j ∧ j < ps.length)) := by omega
          have c2 : j < k + 1 ∨ (ps.length - (k + 1) ≤ j ∧ j < ps.length) := by omega
          have hb : ps.length - 1 - j = k := by omega
          rw [if_neg c1, if_neg hj2, if_pos hj3, if_pos c2, hb]
        · by_cases hj4 : k < j ∧ j < ps.length - 1 - k
          · have c1 : ¬(j < k ∨ (ps.length - k ≤ j ∧ j < ps.length)) := by omega
            have c2 : ¬(j < k + 1 ∨ (ps.length - (k + 1) ≤ j ∧ j < ps.length)) := by
              omega
            rw [if_neg c1, if_neg hj2, if_neg hj3, if_neg c2]
          · by_cases hj5 : j < ps.length
            · have c1 : j < k ∨ (ps.length - k ≤ j ∧ j < ps.length) := by omega
              have c2 : j < k + 1 ∨ (ps.length - (k + 1) ≤ j ∧ j < ps.length) := by
                omega
              have e1 : ¬(ps.length - 1 - j = k) := by omega
              have e2 : ¬(ps.length - 1 - j = ps.length - 1 - k) := by omega
              rw [if_pos c1, if_neg e1, if_neg e2, if_pos c2]
            · have c1 : ¬(j < k ∨ (ps.length - k ≤ j ∧ j < ps.length)) := by omega
              have c2 : ¬(j < k + 1 ∨ (ps.length - (k + 1) ≤ j ∧ j < ps.length)) := by
                omega
              rw [if_neg c1, if_neg hj2, if_neg hj3, if_neg c2]

theorem getElem?_claimReverse (ps : Postings) (j : Nat) :
    (claimReverse ps)[j]? =
      if j < ps.length then (ps[ps.length - 1 - j]?).map swapSourceDest
      else none := by
  rw [claimReverse, List.getElem?_map]
  by_cases hj : j < ps.length
  · rw [if_pos hj, List.getElem?_reverse hj]
  · rw [if_neg hj]
    have : ps.reverse.length ≤ j := by
      rw [List.length_reverse]; omega
    rw [List.getElem?_eq_none this]
    rfl

theorem getElem?_actualReverse (ps : Postings) (j : Nat) (hne1 : ps.length ≠ 1) :
    (actualReverse ps)[j]? =
      if j < ps.length / 2 ∨ (ps.length - ps.length / 2 ≤ j ∧ j < ps.length) then
        (ps[ps.length - 1 - j]?).map swapSourceDest
      else ps[j]? := by
  rw [actualReverse]
  by_cases hodd : 3 ≤ ps.length ∧ ps.length % 2 = 1
  · rw [if_pos hodd, List.getElem?_set]
    by_cases hmid : ps.length / 2 = j
    · subst hmid
      have hc : ¬(ps.length / 2 < ps.length / 2 ∨
          (ps.length - ps.length / 2 ≤ ps.length / 2 ∧
            ps.length / 2 < ps.length)) := by omega
      have hlt : ps.length / 2 < (claimReverse ps).length := by
        rw [claimReverse, List.length_map, List.length_reverse]; omega
      have hjlt : ps.length / 2 < ps.length := by omega
      rw [if_pos rfl, if_pos hlt, if_neg hc,
          List.getD_eq_getElem?_getD, List.getElem?_eq_getElem hjlt]
      rfl
    · rw [if_neg hmid, getElem?_claimReverse]
      by_cases hj : j < ps.length
      · have hc : j < ps.length / 2 ∨
            (ps.length - ps.length / 2 ≤ j ∧ j < ps.length) := by omega
        rw [if_pos hj, if_pos hc]
      · have hc : ¬(j < ps.length / 2 ∨
            (ps.length - ps.length / 2 ≤ j ∧ j < ps.length)) := by omega
        rw [if_neg hj, if_neg hc, List.getElem?_eq_none (by omega)]
  · rw [if_neg hodd, getElem?_claimReverse]
    by_cases hj : j < ps.length
    · have hc : j < ps.length / 2 ∨
          (ps.length - ps.length / 2 ≤ j ∧ j < ps.length) := by omega
      rw [if_pos hj, if_pos hc]
    · have hc : ¬(j < ps.length / 2 ∨
          (ps.length - ps.length / 2 ≤ j ∧ j < ps.length)) := by omega
      rw [if_neg hj, if_neg hc, List.getElem?_eq_none (by omega)]

theorem postingsReverse_eq_actual (ps : Postings) :
    Postings.Reverse ps = actualReverse ps := by
  match ps with
  | [] => decide
  | [p] =>
    have hc : ¬(3 ≤ ([p] : Postings).length ∧ ([p] : Postings).length % 2 = 1) := by
      simp
    rw [actualReverse, if_neg hc]
    rfl
  | p :: q :: rest =>
    have hL : Postings.Reverse (p :: q :: rest) =
        Postings.reverseLoop (p :: q :: rest) ((p :: q :: rest).length / 2) := rfl
    have hlen : (p :: q :: rest).length = rest.length + 2 := by simp
    apply List.ext_getElem?
    intro j
    rw [hL, getElem?_reverseLoop _ _ _ (by omega),
        getElem?_actualReverse _ _ (by omega)]

/-- C1: the claim states that reverse(t) returns a transaction whose
postings are the postings of t in reversed order with Source and
Destination swapped in every posting, including the middle posting of an
odd-length list, and whose reference carries the revert_ marker. At the
concrete three-posting transaction tx3 the code leaves the middle posting
(b to c) with its fields unswapped, so the returned postings differ from
the claimed reversal; the reference part of the claim does hold there. -/
theorem claim_C1_reverse_middle_not_swapped :
    (Transaction.Reverse tx3).1.Postings =
      [⟨"d", "c", 1, "COIN"⟩, ⟨"b", "c", 1, "COIN"⟩, ⟨"b", "a", 1, "COIN"⟩]
    ∧ claimReverse tx3.Postings =
      [⟨"d", "c", 1, "COIN"⟩, ⟨"c", "b", 1, "COIN"⟩, ⟨"b", "a", 1, "COIN"⟩]
    ∧ (Transaction.Reverse tx3).1.Postings ≠ claimReverse tx3.Postings
    ∧ (Transaction.Reverse tx3).1.Reference = "revert_" ++ tx3.Reference := by
  decide

/-- C2 counterexample: the claim states that reverse leaves the postings
of the receiver t unchanged. For the concrete one-posting transaction tx1
the postings of t after the call differ from the postings before it,
because the slice is reversed in place through the shared backing array. -/
theorem claim_C2_counterexample :
    (Transaction.Reverse tx1).2.Postings ≠ tx1.Postings := by
  decide

/-- C2 amended: reverse(t) returns a new transaction but does not leave t
unchanged. The postings of t are mutated in place: after the call they
equal the reversed list with Source and Destination swapped in each
posting, except that the middle posting of an odd-length list of three or
more keeps its fields; the returned transaction shares this postings list,
and the remaining fields of t are unchanged. -/
theorem claim_C2_amended (t : Transaction) :
    (Transaction.Reverse t).2.Postings = actualReverse t.Postings
    ∧ (Transaction.Reverse t).1.Postings = (Transaction.Reverse t).2.Postings
    ∧ (Transaction.Reverse t).2.ID = t.ID
    ∧ (Transaction.Reverse t).2.Reference = t.Reference
    ∧ (Transaction.Reverse t).2.Timestamp = t.Timestamp
    ∧ (Transaction.Reverse t).2.Hash = t.Hash
    ∧ (Transaction.Reverse t).2.Metadata = t.Metadata := by
  exact ⟨postingsReverse_eq_actual t.Postings, rfl, rfl, rfl, rfl, rfl, rfl⟩

/-!
SHA-256, modelled over lists of byte values (Nat below 256) with 32-bit
words as Nat reduced modulo 2^32. This embeds the contract of the Go
crypto/sha256 package used by core.Hash.
-/

/-- Reduction of a word to 32 bits. -/
def w32 (x : Nat) : Nat := x % 4294967296

/-- Right rotation of a 32-bit word by n places. -/
def rotr32 (n x : Nat) : Nat := w32 ((x >>> n) ||| (x <<< (32 - n)))

/-- Choice function of the SHA-256 round. -/
def sha2Ch (e f g : Nat) : Nat := (e &&& f) ^^^ ((e ^^^ 4294967295) &&& g)

/-- Majority function of the SHA-256 round. -/
def sha2Maj (a b c : Nat) : Nat := (a &&& b) ^^^ (a &&& c) ^^^ (b &&& c)

/-- Big sigma 0 of SHA-256. -/
def bsig0 (x : Nat) : Nat := rotr32 2 x ^^^ rotr32 13 x ^^^ rotr32 22 x

/-- Big sigma 1 of SHA-256. -/
def bsig1 (x : Nat) : Nat := rotr32 6 x ^^^ rotr32 11 x ^^^ rotr32 25 x

/-- Small sigma 0 of SHA-256. -/
def ssig0 (x : Nat) : Nat := rotr32 7 x ^^^ rotr32 18 x ^^^ (x >>> 3)

/-- Small sigma 1 of SHA-256. -/
def ssig1 (x : Nat) : Nat := rotr32 17 x ^^^ rotr32 19 x ^^^ (x >>> 10)

/-- Round constants of SHA-256, written in decimal. -/
def sha2K : List Nat :=
  [1116352408, 1899447441, 3049323471, 3921009573,
   961987163, 1508970993, 2453635748, 2870763221,
   3624381080, 310598401, 607225278, 1426881987,
   1925078388, 2162078206, 2614888103, 3248222580,
   3835390401, 4022224774, 264347078, 604807628,
   770255983, 1249150122, 1555081692, 1996064986,
   2554220882, 2821834349, 2952996808, 3210313671,
   3336571891, 3584528711, 113926993, 338241895,
   666307205, 773529912, 1294757372, 1396182291,
   1695183700, 1986661051, 2177026350, 2456956037,
   2730485921, 2820302411, 3259730800, 3345764771,
   3516065817, 3600352804, 4094571909, 275423344,
   430227734, 506948616, 659060556, 883997877,
   958139571, 1322822218, 1537002063, 1747873779,
   1955562222, 2024104815, 2227730452, 2361852424,
   2428436474, 2756734187, 3204031479, 3329325298]

/-- Working state of the SHA-256 compression function. -/
structure Sha2St where
  a : Nat
  b : Nat
  c : Nat
  d : Nat
  e : Nat
  f : Nat
  g : Nat
  h : Nat

/-- Initial hash value of SHA-256, written in decimal. -/
def sha2H0 : Sha2St :=
  ⟨1779033703, 3144134277, 1013904242, 2773480762,
   1359893119, 2600822924, 528734635, 1541459225⟩

/-- One round of the SHA-256 compression function with round constant kt
and message word wt. -/
def sha2Round (st : Sha2St) (kt wt : Nat) : Sha2St :=
  let t1 := w32 (st.h + bsig1 st.e + sha2Ch st.e st.f st.g + kt + wt)
  let t2 := w32 (bsig0 st.a + sha2Maj st.a st.b st.c)
  ⟨w32 (t1 + t2), st.a, st.b, st.c, w32 (st.d + t1), st.e, st.f, st.g⟩

/-- All 64 rounds, consuming the constant list and the message schedule. -/
def sha2Rounds : Sha2St → List Nat → List Nat → Sha2St
  | st, k :: ks, w :: ws => sha2Rounds (sha2Round st k w) ks ws
  | st, _, _ => st

/-- Extension of the 16-word block to the 64-word message schedule,
appending n further words. -/
def sha2Extend : List Nat → Nat → List Nat
  | w, 0 => w
  | w, n + 1 =>
      sha2Extend
        (w ++ [w32 (ssig1 (w.getD (w.length - 2) 0) + w.getD (w.length - 7) 0 +
          ssig0 (w.getD (w.length - 15) 0) + w.getD (w.length - 16) 0)]) n

/-- Compression of one 16-word block into the running state. -/
def sha2Block (st : Sha2St) (block : List Nat) : Sha2St :=
  let e := sha2Rounds st sha2K (sha2Extend block 48)
  ⟨w32 (st.a + e.a), w32 (st.b + e.b), w32 (st.c + e.c), w32 (st.d + e.d),
   w32 (st.e + e.e), w32 (st.f + e.f), w32 (st.g + e.g), w32 (st.h + e.h)⟩

/-- Folding the compression function over all blocks. -/
def sha2Blocks : Sha2St → List (List Nat) → Sha2St
  | st, [] => st
  | st, b :: bs => sha2Blocks (sha2Block st b) bs

/-- Big-endian 8-byte rendering of a 64-bit length value. -/
def u64be (n : Nat) : List Nat :=
  [n >>> 56 % 256, n >>> 48 % 256, n >>> 40 % 256, n >>> 32 % 256,
   n >>> 24 % 256, n >>> 16 % 256, n >>> 8 % 256, n % 256]

/-- Standard SHA-256 padding: a 0x80 byte, zeros to 56 mod 64, and the
message bit length as 8 big-endian bytes. -/
def sha2Pad (m : List Nat) : List Nat :=
  m ++ [128] ++ List.replicate ((120 - (m.length + 1) % 64) % 64) 0 ++
    u64be (8 * m.length)

/-- Grouping of bytes into big-endian 32-bit words; the first argument is
fuel, called with the list length. -/
def bytesToWords : Nat → List Nat → List Nat
  | 0, _ => []
  | _, [] => []
  | fuel + 1, b :: rest =>
      (b * 16777216 + rest.getD 0 0 * 65536 + rest.getD 1 0 * 256 + rest.getD 2 0)
        :: bytesToWords fuel (rest.drop 3)

/-- Grouping of words into 16-word blocks; the first argument is fuel,
called with the list length. -/
def wordsToBlocks : Nat → List Nat → List (List Nat)
  | 0, _ => []
  | _, [] => []
  | fuel + 1, ws => ws.take 16 :: wordsToBlocks fuel (ws.drop 16)

/-- Big-endian 4-byte rendering of one 32-bit word. -/
def wordBytes (w : Nat) : List Nat :=
  [w >>> 24 % 256, w >>> 16 % 256, w >>> 8 % 256, w % 256]

/-- Digest bytes of a final state. -/
def digestBytes (st : Sha2St) : List Nat :=
  wordBytes st.a ++ wordBytes st.b ++ wordBytes st.c ++ wordBytes st.d ++
  wordBytes st.e ++ wordBytes st.f ++ wordBytes st.g ++ wordBytes st.h

/-- SHA-256 of a byte list, as 32 digest bytes. -/
def sha256Digest (m : List Nat) : List Nat :=
  digestBytes (sha2Blocks sha2H0
    (wordsToBlocks (sha2Pad m).length (bytesToWords (sha2Pad m).length (sha2Pad m))))

example : sha256Digest [97, 98, 99] =
    [186, 120, 22, 191, 143, 1, 207, 234,
     65, 65, 64, 222, 93, 174, 34, 35,
     176, 3, 97, 163, 150, 23, 122, 156,
     180, 16, 255, 97, 242, 0, 21, 173] := by decide

/-!
JSON serialization of transactions as Go encoding/json produces it for
core.Transaction: struct fields in declaration order under their json
tags, strings escaped with HTML escaping on, map keys sorted, nil slices
and nil maps rendered as null, and int64 values in decimal.
-/

/-- Lowercase hex digit for a value below 16. -/
def hexDigit (n : Nat) : Char :=
  if n < 10 then Char.ofNat (48 + n) else Char.ofNat (87 + n)

/-- Two lowercase hex digits of a byte value. -/
def hex2 (n : Nat) : String :=
  String.mk [hexDigit (n / 16 % 16), hexDigit (n % 16)]

/-- Escaping of one character as the Go JSON encoder does with its default
HTML escaping: quote, backslash, newline, carriage return and tab get
two-character escapes, other control characters and the characters
less-than, greater-than and ampersand get unicode escapes, and the line
separator code points 2028 and 2029 get unicode escapes as well. -/
def goEscapeChar (c : Char) : String :=
  if c = '"' then "\\\""
  else if c = '\\' then "\\\\"
  else if c = '\n' then "\\n"
  else if c = '\r' then "\\r"
  else if c = '\t' then "\\t"
  else if c.toNat < 32 then "\\u00" ++ hex2 c.toNat
  else if c = '<' then "\\u003c"
  else if c = '>' then "\\u003e"
  else if c = '&' then "\\u0026"
  else if c.toNat = 8232 then "\\u2028"
  else if c.toNat = 8233 then "\\u2029"
  else String.singleton c

/-- Escaping of a whole string. -/
def goEscape (s : String) : String :=
  String.join (s.toList.map goEscapeChar)

/-- UTF-8 bytes of a string, as Nat values. -/
def strBytes (s : String) : List Nat :=
  s.toUTF8.toList.map (fun b => b.toNat)

/-- JSON string literal bytes for a Go string value. -/
def marshalString (s : String) : List Nat :=
  strBytes ("\"" ++ goEscape s ++ "\"")

/-- Bytes of a json object key followed by a colon. -/
def fieldKeyBytes (name : String) : List Nat :=
  strBytes ("\"" ++ name ++ "\":")

/-- JSON bytes of one posting, fields in the declaration order of
core.Posting under the tags source, destination, amount, asset. -/
def marshalPosting (p : Posting) : List Nat :=
  strBytes "\x7b" ++ fieldKeyBytes "source" ++ marshalString p.Source ++
  strBytes "," ++ fieldKeyBytes "destination" ++ marshalString p.Destination ++
  strBytes "," ++ fieldKeyBytes "amount" ++ strBytes (toString p.Amount) ++
  strBytes "," ++ fieldKeyBytes "asset" ++ marshalString p.Asset ++
  strBytes "\x7d"

/-- JSON bytes of a postings slice; the nil slice of the zero-value
transaction renders as null, which the empty list models. -/
def marshalPostings : List Posting → List Nat
  | [] => strBytes "null"
  | ps => strBytes "[" ++
      List.intercalate (strBytes ",") (ps.map marshalPosting) ++ strBytes "]"

/-- Insertion into a key-sorted association list, by the byte order Go
uses for map keys during marshaling. -/
def metaInsert (kv : String × String) : Metadata → Metadata
  | [] => [kv]
  | x :: xs => if kv.1 < x.1 then kv :: x :: xs else x :: metaInsert kv xs

/-- Sorting of metadata entries by key. -/
def metaSort : Metadata → Metadata
  | [] => []
  | x :: xs => metaInsert x (metaSort xs)

/-- JSON bytes of one metadata entry: escaped key, colon, raw JSON value
bytes (json.RawMessage is written verbatim). -/
def metaEntryBytes (kv : String × String) : List Nat :=
  marshalString kv.1 ++ strBytes ":" ++ strBytes kv.2

/-- JSON bytes of the metadata map; the nil map renders as null, which
the empty list models, and keys are emitted in sorted order. -/
def marshalMetadata : Metadata → List Nat
  | [] => strBytes "null"
  | m => strBytes "\x7b" ++
      List.intercalate (strBytes ",") ((metaSort m).map metaEntryBytes) ++
      strBytes "\x7d"

/-- JSON bytes of a whole transaction as json.Marshal produces them for
core.Transaction: the six fields in declaration order under their json
tags txid, postings, reference, timestamp, hash, metadata. -/
def jsonMarshal (t : Transaction) : List Nat :=
  strBytes "\x7b" ++
  (fieldKeyBytes "txid" ++ (strBytes (toString t.ID) ++
  (strBytes "," ++ (fieldKeyBytes "postings" ++ (marshalPostings t.Postings ++
  (strBytes "," ++ (fieldKeyBytes "reference" ++ (marshalString t.Reference ++
  (strBytes "," ++ (fieldKeyBytes "timestamp" ++ (marshalString t.Timestamp ++
  (strBytes "," ++ (fieldKeyBytes "hash" ++ (marshalString t.Hash ++
  (strBytes "," ++ (fieldKeyBytes "metadata" ++ (marshalMetadata t.Metadata ++
  strBytes "\x7d")))))))))))))))))

/-- GoHash models the streaming digest handle of crypto/sha256 through
its documented contract: writes accumulate bytes, and Sum yields the
SHA-256 of everything written. -/
structure GoHash where
  written : List Nat

/-- Model of sha256.New: a fresh handle with nothing written. -/
def sha256New : GoHash := ⟨[]⟩

/-- Model of the Write method of the handle. -/
def GoHash.Write (h : GoHash) (b : List Nat) : GoHash := ⟨h.written ++ b⟩

/-- Model of Sum(nil): the digest of all written bytes. -/
def GoHash.Sum (h : GoHash) : List Nat := sha256Digest h.written

/-- Hex characters of a byte list, two lowercase digits per byte, as the
Sprintf %x verb renders a byte slice. -/
def bytesToHexChars : List Nat → List Char
  | [] => []
  | b :: bs => hexDigit (b / 16 % 16) :: hexDigit (b % 16) :: bytesToHexChars bs

/-- Hex string of a byte list. -/
def bytesToHex (bs : List Nat) : String := String.mk (bytesToHexChars bs)

/-- Hash models the Go function core.Hash: marshal both transactions to
JSON, write the first then the second into a fresh SHA-256 handle, and
render the digest with the %x verb. -/
def Hash (t1 : Transaction) (t2 : Transaction) : String :=
  let b1 := jsonMarshal t1
  let b2 := jsonMarshal t2
  bytesToHex ((GoHash.Write (GoHash.Write sha256New b1) b2).Sum)

/-- Containment of a byte sequence inside another. -/
def bytesContain (s key : List Nat) : Prop :=
  ∃ a b, s = a ++ (key ++ b)

/-- The serialization carries the five json keys the claim names: txid,
postings, reference, timestamp and hash. -/
def marshalHasFields (s : List Nat) : Prop :=
  bytesContain s (fieldKeyBytes "txid") ∧
  bytesContain s (fieldKeyBytes "postings") ∧
  bytesContain s (fieldKeyBytes "reference") ∧
  bytesContain s (fieldKeyBytes "timestamp") ∧
  bytesContain s (fieldKeyBytes "hash")

theorem bytesContain_head (key b : List Nat) : bytesContain (key ++ b) key :=
  ⟨[], b, rfl⟩

theorem bytesContain_tail (x s key : List Nat) (h : bytesContain s key) :
    bytesContain (x ++ s) key := by
  obtain ⟨a, b, rfl⟩ := h
  exact ⟨x ++ a, b, by rw [List.append_assoc]⟩

theorem jsonMarshal_hasFields (t : Transaction) :
    marshalHasFields (jsonMarshal t) := by
  rw [marshalHasFields, jsonMarshal]
  refine ⟨?_, ?_, ?_, ?_, ?_⟩
  · exact bytesContain_tail _ _ _ (bytesContain_head _ _)
  · exact bytesContain_tail _ _ _ (bytesContain_tail _ _ _ (bytesContain_tail _ _ _
      (bytesContain_tail _ _ _ (bytesContain_head _ _))))
  · exact bytesContain_tail _ _ _ (bytesContain_tail _ _ _ (bytesContain_tail _ _ _
      (bytesContain_tail _ _ _ (bytesContain_tail _ _ _ (bytesContain_tail _ _ _
      (bytesContain_tail _ _ _ (bytesContain_head _ _)))))))
  · exact bytesContain_tail _ _ _ (bytesContain_tail _ _ _ (bytesContain_tail _ _ _
      (bytesContain_tail _ _ _ (bytesContain_tail _ _ _ (bytesContain_tail _ _ _
      (bytesContain_tail _ _ _ (bytesContain_tail _ _ _ (bytesContain_tail _ _ _
      (bytesContain_tail _ _ _ (bytesContain_head _ _))))))))))
  · exact bytesContain_tail _ _ _ (bytesContain_tail _ _ _ (bytesContain_tail _ _ _
      (bytesContain_tail _ _ _ (bytesContain_tail _ _ _ (bytesContain_tail _ _ _
      (bytesContain_tail _ _ _ (bytesContain_tail _ _ _ (bytesContain_tail _ _ _
      (bytesContain_tail _ _ _ (bytesContain_tail _ _ _ (bytesContain_tail _ _ _
      (bytesContain_tail _ _ _ (bytesContain_head _ _)))))))))))))

theorem length_bytesToHexChars (bs : List Nat) :
    (bytesToHexChars bs).length = 2 * bs.length := by
  induction bs with
  | nil => rfl
  | cons b bs ih => simp [bytesToHexChars, ih]; omega

theorem length_sha256Digest (m : List Nat) : (sha256Digest m).length = 32 := rfl

theorem hexDigit_mem (n : Nat) (h : n < 16) :
    hexDigit n ∈ "0123456789abcdef".toList := by
  revert h
  revert n
  decide

theorem bytesToHexChars_mem (bs : List Nat) (c : Char)
    (hc : c ∈ bytesToHexChars bs) : c ∈ "0123456789abcdef".toList := by
  induction bs with
  | nil => cases hc
  | cons b bs ih =>
    simp only [bytesToHexChars, List.mem_cons] at hc
    rcases hc with rfl | rfl | hc
    · exact hexDigit_mem _ (by omega)
    · exact hexDigit_mem _ (by omega)
    · exact ih hc

/-- C3: for every pair of transactions, Hash equals the lowercase hex
encoding of SHA-256 applied to the concatenation of the JSON
serialization of the first followed by the JSON serialization of the
second, with the serialization carrying the txid, postings, reference,
timestamp and hash fields. The two Write calls of the source feed the
digest exactly the concatenation, the serializations of both arguments
carry the five named json keys, and the rendered digest is 64 characters
drawn from the lowercase hex alphabet. -/
theorem claim_C3_hash (t1 t2 : Transaction) :
    Hash t1 t2 = bytesToHex (sha256Digest (jsonMarshal t1 ++ jsonMarshal t2))
    ∧ marshalHasFields (jsonMarshal t1)
    ∧ marshalHasFields (jsonMarshal t2)
    ∧ (Hash t1 t2).toList.length = 64
    ∧ (Hash t1 t2).toList.all
        (fun c => "0123456789abcdef".toList.contains c) = true := by
  refine ⟨rfl, jsonMarshal_hasFields t1, jsonMarshal_hasFields t2, ?_, ?_⟩
  · show (bytesToHexChars (sha256Digest (jsonMarshal t1 ++ jsonMarshal t2))).length = 64
    rw [length_bytesToHexChars, length_sha256Digest]
  · rw [List.all_eq_true]
    intro c hc
    exact List.elem_iff.mpr (bytesToHexChars_mem _ _ hc)
